import Mathlib

/-!
Verification development for `src/clean_data.py`: the per-unit processing
pipeline (`process_series`), the unit locator (`filter_series`), the
dispatcher (`main`, serial and pool branches) and the output-tree sanitizer
(`remove_invalid_files_and_empty_dirs`), embedded shallowly.
-/

namespace CleanData

/-! ## String helpers mirroring the Python primitives used by the source -/

/-- Python `s.lower()`: lowercase every character. -/
def strLower (s : String) : String := ⟨s.data.map Char.toLower⟩

/-- Python `s.endswith(suffix)`: suffix test on the character list. -/
def endsWithStr (s suffix : String) : Bool := decide (suffix.data <:+ s.data)

/-- Helper for `os.path.splitext` on a bare file name (no path separators),
working on the reversed character list: collect the characters up to and
including the first dot; Python yields no extension when every character
before the last dot of the name is itself a dot. -/
def extRev : List Char → Option (List Char)
  | [] => none
  | c :: rest =>
    if c = '.' then
      if rest.any (fun d => d ≠ '.') then some [c] else none
    else
      match extRev rest with
      | some e => some (c :: e)
      | none => none

/-- Python `os.path.splitext(name)[1]`: the extension, from the last dot onward
(empty when the name has no dot, or only leading dots). -/
def splitextExt (name : String) : String :=
  match extRev name.data.reverse with
  | some e => ⟨e.reverse⟩
  | none => ""

/-- Python `os.path.splitext(name)[0]`: the stem, i.e. the name with its extension
removed. -/
def splitextStem (name : String) : String :=
  match extRev name.data.reverse with
  | some e => ⟨(name.data.reverse.drop e.length).reverse⟩
  | none => name

/-! ## Sanitizer (`remove_invalid_files_and_empty_dirs`, lines 140-168) -/

/-- The set `VALID_EXTENSIONS` (line 13). -/
def VALID_EXTENSIONS : List String := [".dcm", ".json", ".nii.gz"]

/-- The set `VALID_FILENAMES` (line 14). -/
def VALID_FILENAMES : List String := ["LICENSE"]

/-- The keep test of the file sweep (lines 152-153): a file survives iff
`os.path.splitext(fname)[1].lower()` is in `VALID_EXTENSIONS`, or the exact
name is in `VALID_FILENAMES`. -/
def keepFile (fname : String) : Bool :=
  decide (strLower (splitextExt fname) ∈ VALID_EXTENSIONS) ||
  decide (fname ∈ VALID_FILENAMES)

mutual

/-- A directory: its regular files and its subdirectories. -/
inductive FsTree : Type where
  | mk : List String → FsForest → FsTree

/-- A list of named subdirectories. -/
inductive FsForest : Type where
  | nil : FsForest
  | cons : String → FsTree → FsForest → FsForest

end

/-- The files of a directory. -/
def FsTree.files : FsTree → List String
  | .mk fs _ => fs

/-- The subdirectories of a directory. -/
def FsTree.subdirs : FsTree → FsForest
  | .mk _ sub => sub

/-- Python `not os.listdir(dirpath)` (line 164): no files and no subdirectories. -/
def FsTree.isEmptyDir : FsTree → Bool
  | .mk files sub =>
    files.isEmpty && (match sub with | .nil => true | .cons _ _ _ => false)

mutual

/-- First walk of `remove_invalid_files_and_empty_dirs` (lines 148-158):
remove, in every directory of the tree, every file failing `keepFile`;
directories are untouched by this walk. -/
def sweepFilesT : FsTree → FsTree
  | .mk files sub => .mk (files.filter keepFile) (sweepFilesF sub)

/-- File sweep over a forest. -/
def sweepFilesF : FsForest → FsForest
  | .nil => .nil
  | .cons n t rest => .cons n (sweepFilesT t) (sweepFilesF rest)

end

mutual

/-- Second walk (lines 161-168), bottom-up with a live `os.listdir`: the
subdirectories are processed first and a subdirectory that is empty once
processed is removed (`os.rmdir`), so removing children can empty and thus
remove the parent within the same pass.  The root directory itself is
handled by `remove_invalid_files_and_empty_dirs`. -/
def pruneT : FsTree → FsTree
  | .mk files sub => .mk files (pruneF sub)

/-- Empty-directory sweep over a forest. -/
def pruneF : FsForest → FsForest
  | .nil => .nil
  | .cons n t rest =>
    if (pruneT t).isEmptyDir then pruneF rest
    else .cons n (pruneT t) (pruneF rest)

end

/-- The function `remove_invalid_files_and_empty_dirs(root_dir)` (lines 140-168): file
sweep, then bottom-up empty-directory sweep; `os.walk(root, topdown=False)`
yields the root itself last, so a root directory that ends up empty is also
removed (`none`). -/
def remove_invalid_files_and_empty_dirs (root : FsTree) : Option FsTree :=
  if (pruneT (sweepFilesT root)).isEmptyDir then none
  else some (pruneT (sweepFilesT root))

/-! ## Unit locator (`filter_series`, lines 16-31) -/

/-- One `os.listdir` entry of a date directory: (name, `os.path.isfile`). -/
abbrev DirEntry := String × Bool

/-- The loop of `filter_series` (lines 24-29), accumulating the two stem
sets; the `elif` order of the source is kept. -/
def filterSeriesLoop :
    List DirEntry → Finset String → Finset String → Finset String × Finset String
  | [], zipIds, jsonIds => (zipIds, jsonIds)
  | (f, isfile) :: rest, zipIds, jsonIds =>
    if endsWithStr f ".zip" && isfile then
      filterSeriesLoop rest (insert (splitextStem f) zipIds) jsonIds
    else if endsWithStr f ".json" && isfile then
      filterSeriesLoop rest zipIds (insert (splitextStem f) jsonIds)
    else
      filterSeriesLoop rest zipIds jsonIds

/-- The function `filter_series(date_path)` (lines 16-31): the series ids having both a
`.zip` and a `.json` regular file in the date directory. -/
def filter_series (listing : List DirEntry) : Finset String :=
  (filterSeriesLoop listing ∅ ∅).1 ∩ (filterSeriesLoop listing ∅ ∅).2

/-! ## Per-unit pipeline (`process_series`, lines 33-138) -/

/-- A file inside the staging directory: (subdirectory chain, file name). -/
abbrev Entry := List String × String

/-- Set-style insert on a staging file list. -/
def insertE (e : Entry) (l : List Entry) : List Entry :=
  if e ∈ l then l else e :: l

/-- Outcome of `zf.extractall` (lines 68-81): success with the extracted
entries, `zipfile.BadZipFile`, or another exception after extracting
`leftover`. -/
inductive UnzipOutcome where
  | ok (contents : List Entry)
  | badZip
  | err (leftover : List Entry)
  deriving DecidableEq

/-- Success or failure of every fallible operating-system or library call
performed by `process_series`, plus the archive contents: the environment
one run executes against. -/
structure Env where
  makedirsDateOk : Bool
  makedirsSeriesOk : Bool
  copyZipOk : Bool
  unzip : UnzipOutcome
  removeZipOk : Bool
  sitkReadOk : Bool
  sitkWriteOk : Bool
  dcmRemoveFail : List Entry
  jsonCopyOk : Bool
  deriving DecidableEq

/-- One print of `process_series`, identified by call site. -/
inductive LogMsg where
  | warnCopyZip
  | warnBadZip
  | warnUnzipErr
  | warnNoDcm
  | warnSitkRead
  | warnSitkWrite
  | warnRemoveDcm (e : Entry)
  | warnCopyJson
  | infoFinished
  deriving DecidableEq

/-- The warnings that accompany a skip (`return None`): lines 64, 72, 78,
97, 107 and 116 of the source. -/
def LogMsg.isSkipWarn : LogMsg → Bool
  | .warnCopyZip | .warnBadZip | .warnUnzipErr | .warnNoDcm
  | .warnSitkRead | .warnSitkWrite => true
  | _ => false

/-- An exception escaping `process_series` (the call has no surrounding
`try`). -/
inductive PyExc where
  | makedirsFail
  | removeFail
  deriving DecidableEq

/-- Observable result of one `process_series` call: the returned value (or
the escaped exception), the staging directory contents (`none` means the
directory is absent), and the prints. -/
structure PRes where
  ret : Except PyExc (Option (String × String × String))
  staging : Option (List Entry)
  log : List LogMsg

/-- The file `series_id + ".zip"` copied into the staging root (line 60). -/
def localZip (u : String) : Entry := ([], u ++ ".zip")

/-- The file `series_id + ".nii.gz"`, the converted volume (line 112). -/
def volFile (u : String) : Entry := ([], u ++ ".nii.gz")

/-- The file `series_id + ".json"`, the sidecar copy target (line 130). -/
def jsonFile (u : String) : Entry := ([], u ++ ".json")

/-- Python `fname.lower().endswith(".dcm")` (line 92). -/
def isDcmName (s : String) : Bool := endsWithStr (strLower s) ".dcm"

/-- Staging contents right after line 84 (`os.remove(local_zip_path)`),
given the entries the archive extracted: the copied archive plus the
extracted entries, minus the archive path. -/
def afterZipRemoval (u : String) (contents : List Entry) : List Entry :=
  (insertE (localZip u) contents).filter (fun e => e ≠ localZip u)

/-- The list `dcm_files` collected by the walk at lines 89-93. -/
def dcmsOf (u : String) (contents : List Entry) : List Entry :=
  (afterZipRemoval u contents).filter (fun e => isDcmName e.2)

/-- Staging contents after the volume write (line 114) and the best-effort
frame-file removal loop (lines 121-125): a collected frame file stays only
when its removal failed (`df` is the set of failing removals). -/
def afterDcmRemoval (u : String) (cs df : List Entry) : List Entry :=
  (insertE (volFile u) (afterZipRemoval u cs)).filter
    (fun e => !(decide (e ∈ dcmsOf u cs) && !decide (e ∈ df)))

/-- Staging contents at the end of a completed run: `afterDcmRemoval`, plus
the sidecar when the copy at lines 131-134 succeeded (`jc`). -/
def finalStaging (u : String) (cs df : List Entry) (jc : Bool) : List Entry :=
  if jc then insertE (jsonFile u) (afterDcmRemoval u cs df)
  else afterDcmRemoval u cs df

/-- The function `process_series` (lines 33-138) for one `(patient_folder, date_folder,
series_id)` task, as a function of the environment.  Control flow and
filesystem effects follow the source line by line; `some l` for the staging
directory means it exists and holds exactly the files in `l`. -/
def process_series (g d u : String) (env : Env) : PRes :=
  if !env.makedirsDateOk then
    ⟨.error .makedirsFail, none, []⟩
  else if !env.makedirsSeriesOk then
    ⟨.error .makedirsFail, none, []⟩
  else if !env.copyZipOk then
    ⟨.ok none, some [], [.warnCopyZip]⟩
  else
    match env.unzip with
    | .badZip =>
      if env.removeZipOk then
        ⟨.ok none, none, [.warnBadZip]⟩
      else
        ⟨.error .removeFail, some [localZip u], [.warnBadZip]⟩
    | .err leftover =>
      if env.removeZipOk then
        ⟨.ok none, none, [.warnUnzipErr]⟩
      else
        ⟨.error .removeFail, some (insertE (localZip u) leftover), [.warnUnzipErr]⟩
    | .ok contents =>
      if !env.removeZipOk then
        ⟨.error .removeFail, some (insertE (localZip u) contents), []⟩
      else
        let dcms := dcmsOf u contents
        if dcms.isEmpty then
          ⟨.ok none, none, [.warnNoDcm]⟩
        else if !env.sitkReadOk then
          ⟨.ok none, none, [.warnSitkRead]⟩
        else if !env.sitkWriteOk then
          ⟨.ok none, none, [.warnSitkWrite]⟩
        else
          let rmLogs :=
            (dcms.filter (fun e => decide (e ∈ env.dcmRemoveFail))).map LogMsg.warnRemoveDcm
          ⟨.ok (some (g, d, u)),
            some (finalStaging u contents env.dcmRemoveFail env.jsonCopyOk),
            rmLogs ++
              (if env.jsonCopyOk then [.infoFinished]
               else [.warnCopyJson, .infoFinished])⟩

/-! ## Dispatcher (`main`, lines 219-228) -/

/-- One task tuple `(patient_folder, date_folder, series_id)`. -/
abbrev Task := String × String × String

/-- Serial branch of `main` (lines 226-228): `map(process_series, tasks)`,
strictly in list order. -/
def dispatchSerial (envOf : Task → Env) (tasks : List Task) : List PRes :=
  tasks.map (fun t => process_series t.1 t.2.1 t.2.2 (envOf t))

/-- Pool branch of `main` (lines 220-224): `pool.imap_unordered` applies
`process_series` to every task exactly once and yields results in an
arbitrary arrival order; `sched` is that arrival order, a permutation of
the task list. -/
def dispatchPool (envOf : Task → Env) (sched : List Task) : List PRes :=
  sched.map (fun t => process_series t.1 t.2.1 t.2.2 (envOf t))

/-! ## Concrete inputs used by the witnesses and counterexamples -/

/-- An output tree laid out as the spec describes a completed unit:
`output_root/ISPY2-100001/06-15-2010/S1/` holding the converted volume and
the sidecar. -/
def exTreeC1 : FsTree :=
  .mk []
    (.cons "ISPY2-100001"
      (.mk []
        (.cons "06-15-2010"
          (.mk [] (.cons "S1" (.mk ["S1.nii.gz", "S1.json"] .nil) .nil))
          .nil))
      .nil)

/-- The tree `exTreeC1` after the sanitizer: the volume file is gone. -/
def exTreeC1Swept : FsTree :=
  .mk []
    (.cons "ISPY2-100001"
      (.mk []
        (.cons "06-15-2010"
          (.mk [] (.cons "S1" (.mk ["S1.json"] .nil) .nil))
          .nil))
      .nil)

/-- A tree with one invalid file, one valid file and one empty
subdirectory. -/
def exTreeC8 : FsTree := .mk ["a.dcm", "x.tmp"] (.cons "E" (.mk [] .nil) .nil)

/-- An environment in which every call succeeds and the archive holds one
frame file. -/
def envOkBase : Env :=
  { makedirsDateOk := true
    makedirsSeriesOk := true
    copyZipOk := true
    unzip := .ok [(["d1"], "im1.dcm")]
    removeZipOk := true
    sitkReadOk := true
    sitkWriteOk := true
    dcmRemoveFail := []
    jsonCopyOk := true }

/-- Every call succeeds but the archive is corrupt. -/
def envBadZip : Env := { envOkBase with unzip := .badZip }

/-- Every call succeeds but the archive holds no frame file. -/
def envNoDcm : Env := { envOkBase with unzip := .ok [] }

/-- Every call succeeds and the archive also holds a non-frame file. -/
def envExtraFile : Env :=
  { envOkBase with unzip := .ok [([], "notes.txt"), (["d1"], "im1.dcm")] }

/-- The run reaches stage 5 but the frame-file removal and the sidecar copy
both fail. -/
def envStage5Fail : Env :=
  { envOkBase with dcmRemoveFail := [(["d1"], "im1.dcm")], jsonCopyOk := false }

/-- The call `os.makedirs` for the date directory fails. -/
def envMakedirsFail : Env := { envOkBase with makedirsDateOk := false }

/-- The guarded archive copy (line 62) fails. -/
def envCopyFail : Env := { envOkBase with copyZipOk := false }

/-- Environment assignment used by the dispatcher witness. -/
def envOfW : Task → Env := fun _ => envOkBase

/-! ## Helper lemmas on strings -/

/-- Unfolding lemma for `strLower`. -/
theorem strLower_data (s : String) : (strLower s).data = s.data.map Char.toLower := rfl

/-- A nonempty suffix determines the last element. -/
theorem getLast?_eq_of_suffix {l₁ l₂ : List Char} (h : l₁ <:+ l₂) (hne : l₁ ≠ []) :
    l₂.getLast? = l₁.getLast? := by
  obtain ⟨s, rfl⟩ := h
  exact List.getLast?_append_of_ne_nil s hne

/-- A true `endsWithStr` determines the last character. -/
theorem endsWithStr_getLast {s t : String} (h : endsWithStr s t = true) (hne : t.data ≠ []) :
    s.data.getLast? = t.data.getLast? := by
  exact getLast?_eq_of_suffix (of_decide_eq_true h) hne

/-- No file name ends both in `.zip` and in `.json`. -/
theorem not_endsWith_zip_and_json (f : String) :
    ¬(endsWithStr f ".zip" = true ∧ endsWithStr f ".json" = true) := by
  rintro ⟨h1, h2⟩
  have e1 := endsWithStr_getLast h1 (by decide)
  have e2 := endsWithStr_getLast h2 (by decide)
  rw [e1] at e2
  exact absurd e2 (by decide)

/-- A string obtained by appending `t` cannot equal a string whose last
character differs from the last character of `t`. -/
theorem append_ne_of_last {t : String} (u v : String) (htne : t.data ≠ [])
    (h : t.data.getLast? ≠ v.data.getLast?) : u ++ t ≠ v := by
  intro he
  apply h
  rw [← he, String.data_append, List.getLast?_append_of_ne_nil _ htne]

/-- Appending different strings to a common prefix gives different
strings. -/
theorem append_right_ne (u : String) {a b : String} (h : a ≠ b) : u ++ a ≠ u ++ b := by
  intro he
  apply h
  apply String.ext
  have hd := congrArg String.data he
  rw [String.data_append, String.data_append] at hd
  exact List.append_cancel_left hd

/-- The test `fname.lower().endswith(".dcm")` fails for any name built by appending a
fixed tail whose lowercase form does not end in `m`. -/
theorem isDcmName_append (u t : String) (htne : t.data ≠ [])
    (ht : (t.data.map Char.toLower).getLast? ≠ some 'm') :
    isDcmName (u ++ t) = false := by
  simp only [isDcmName, endsWithStr, strLower_data, String.data_append, List.map_append]
  apply decide_eq_false
  intro hsuf
  have hM : (u.data.map Char.toLower ++ t.data.map Char.toLower).getLast? = some 'm' := by
    rw [getLast?_eq_of_suffix hsuf (by decide)]
    decide
  rw [List.getLast?_append_of_ne_nil _ (by simpa using htne)] at hM
  exact ht hM

/-- The converted volume never counts as a frame file. -/
theorem isDcmName_vol (u : String) : isDcmName (u ++ ".nii.gz") = false :=
  isDcmName_append u ".nii.gz" (by decide) (by decide)

/-- The sidecar never counts as a frame file. -/
theorem isDcmName_json (u : String) : isDcmName (u ++ ".json") = false :=
  isDcmName_append u ".json" (by decide) (by decide)

/-- Python `os.path.splitext` keeps only the last dot-suffix: for any series id
`u`, the extension of `u + ".nii.gz"` is `".gz"`. -/
theorem splitextExt_append_nii (u : String) : splitextExt (u ++ ".nii.gz") = ".gz" := by
  unfold splitextExt
  rw [String.data_append, List.reverse_append]
  have h7 : (".nii.gz".data).reverse = ['z', 'g', '.', 'i', 'i', 'n', '.'] := by decide
  rw [h7]
  simp [extRev]

/-- The sanitizer's keep test rejects every converted volume file. -/
theorem keepFile_append_nii (u : String) : keepFile (u ++ ".nii.gz") = false := by
  unfold keepFile
  rw [splitextExt_append_nii]
  have h2 : decide ((strLower ".gz") ∈ VALID_EXTENSIONS) = false := by decide
  rw [h2]
  have h3 : u ++ ".nii.gz" ≠ "LICENSE" :=
    append_ne_of_last u "LICENSE" (by decide) (by decide)
  have h4 : decide ((u ++ ".nii.gz") ∈ VALID_FILENAMES) = false := by
    apply decide_eq_false
    simp [VALID_FILENAMES, h3]
  rw [h4]
  rfl

/-! ## Claim theorems: sanitizer -/

/-- C1: the claim says the sweep never removes allow-listed converted-volume
files, and the code's own allow-list names `".nii.gz"`; but
`os.path.splitext` yields `".gz"` for such names, so the keep test rejects
every `<unit_id>.nii.gz` and the sweep deletes the converted volume of a
completed unit (the sidecar survives).  This contradicts the code's declared
allow-list: a code bug. -/
theorem C1_sanitizer_deletes_volume :
    (".nii.gz" ∈ VALID_EXTENSIONS) ∧
    (∀ u : String, keepFile (u ++ ".nii.gz") = false) ∧
    remove_invalid_files_and_empty_dirs exTreeC1 = some exTreeC1Swept :=
  ⟨by decide, keepFile_append_nii, by rfl⟩

/-- C10: the bottom-up empty-directory walk includes the output root itself:
if after the invalid-file pass the root directory holds no files and no
subdirectories, the sanitizer removes the root (result `none`). -/
theorem C10_empty_root_removed (t : FsTree)
    (h : (sweepFilesT t).isEmptyDir = true) :
    remove_invalid_files_and_empty_dirs t = none := by
  have hmk : sweepFilesT t = .mk [] .nil := by
    rcases hs : sweepFilesT t with ⟨fs, sub⟩
    rw [hs] at h
    unfold FsTree.isEmptyDir at h
    rw [Bool.and_eq_true] at h
    obtain ⟨h1, h2⟩ := h
    rcases sub with _ | ⟨n, c, rest⟩
    · rw [List.isEmpty_iff.mp h1]
    · exact absurd h2 (by simp)
  unfold remove_invalid_files_and_empty_dirs
  rw [hmk]
  rfl

/-- Witness for C10 at a root holding a single disallowed file. -/
theorem C10_empty_root_removed_witness :
    remove_invalid_files_and_empty_dirs (FsTree.mk ["junk.tmp"] .nil) = none :=
  C10_empty_root_removed (FsTree.mk ["junk.tmp"] .nil) (by decide)

/-! ## Sanitizer idempotence -/

mutual

/-- The file sweep is idempotent on a tree. -/
theorem sweepFilesT_idem (t : FsTree) : sweepFilesT (sweepFilesT t) = sweepFilesT t := by
  cases t with
  | mk files sub =>
    simp only [sweepFilesT]
    rw [sweepFilesF_idem sub]
    simp [List.filter_filter]

/-- The file sweep is idempotent on a forest. -/
theorem sweepFilesF_idem (f : FsForest) : sweepFilesF (sweepFilesF f) = sweepFilesF f := by
  cases f with
  | nil => rfl
  | cons n t rest =>
    simp only [sweepFilesF]
    rw [sweepFilesT_idem t, sweepFilesF_idem rest]

end

mutual

/-- The empty-directory sweep is idempotent on a tree. -/
theorem pruneT_idem (t : FsTree) : pruneT (pruneT t) = pruneT t := by
  cases t with
  | mk files sub =>
    simp only [pruneT]
    rw [pruneF_idem sub]

/-- The empty-directory sweep is idempotent on a forest. -/
theorem pruneF_idem (f : FsForest) : pruneF (pruneF f) = pruneF f := by
  cases f with
  | nil => rfl
  | cons n t rest =>
    by_cases h : (pruneT t).isEmptyDir = true
    · simp only [pruneF, h, if_true]
      exact pruneF_idem rest
    · simp only [pruneF, if_neg h]
      simp only [pruneF, pruneT_idem t, pruneF_idem rest, if_neg h]

end

mutual

/-- On an already file-swept tree, the empty-directory sweep leaves nothing
for a further file sweep. -/
theorem sweepFilesT_pruneT (t : FsTree) (h : sweepFilesT t = t) :
    sweepFilesT (pruneT t) = pruneT t := by
  cases t with
  | mk files sub =>
    simp only [sweepFilesT, FsTree.mk.injEq] at h
    simp only [pruneT, sweepFilesT, FsTree.mk.injEq]
    exact ⟨h.1, sweepFilesF_pruneF sub h.2⟩

/-- On an already file-swept forest, the empty-directory sweep leaves
nothing for a further file sweep. -/
theorem sweepFilesF_pruneF (f : FsForest) (h : sweepFilesF f = f) :
    sweepFilesF (pruneF f) = pruneF f := by
  cases f with
  | nil => rfl
  | cons n t rest =>
    simp only [sweepFilesF, FsForest.cons.injEq] at h
    obtain ⟨-, h1, h2⟩ := h
    by_cases he : (pruneT t).isEmptyDir = true
    · simp only [pruneF, he, if_true]
      exact sweepFilesF_pruneF rest h2
    · simp only [pruneF, if_neg he, sweepFilesF]
      rw [sweepFilesT_pruneT t h1, sweepFilesF_pruneF rest h2]

end

/-- C8: re-running the sanitizer on a tree it has already processed (and not
removed outright) is a no-op: the second run removes no file and no
directory. -/
theorem C8_sanitizer_idempotent (t t2 : FsTree)
    (h : remove_invalid_files_and_empty_dirs t = some t2) :
    remove_invalid_files_and_empty_dirs t2 = some t2 := by
  unfold remove_invalid_files_and_empty_dirs at h
  by_cases he : (pruneT (sweepFilesT t)).isEmptyDir = true
  · rw [if_pos he] at h
    exact absurd h (by simp)
  · rw [if_neg he] at h
    obtain rfl : pruneT (sweepFilesT t) = t2 := Option.some.inj h
    unfold remove_invalid_files_and_empty_dirs
    rw [sweepFilesT_pruneT (sweepFilesT t) (sweepFilesT_idem t), pruneT_idem]
    rw [if_neg he]

/-- Witness for C8: a tree holding a disallowed file and an empty
subdirectory sanitizes to a fixed point. -/
theorem C8_sanitizer_idempotent_witness :
    remove_invalid_files_and_empty_dirs (FsTree.mk ["a.dcm"] .nil) =
      some (FsTree.mk ["a.dcm"] .nil) :=
  C8_sanitizer_idempotent exTreeC8 (FsTree.mk ["a.dcm"] .nil) (by rfl)

/-! ## Unit locator -/

/-- Membership in the two stem sets accumulated by the `filter_series`
loop. -/
theorem filterSeriesLoop_mem (listing : List DirEntry) (z j : Finset String) (s : String) :
    (s ∈ (filterSeriesLoop listing z j).1 ↔
      s ∈ z ∨ ∃ p ∈ listing, p.2 = true ∧ endsWithStr p.1 ".zip" = true ∧ splitextStem p.1 = s) ∧
    (s ∈ (filterSeriesLoop listing z j).2 ↔
      s ∈ j ∨ ∃ p ∈ listing, p.2 = true ∧ endsWithStr p.1 ".json" = true ∧ splitextStem p.1 = s) := by
  induction listing generalizing z j with
  | nil => simp [filterSeriesLoop]
  | cons hd tl ih =>
    obtain ⟨f, isf⟩ := hd
    cases isf with
    | false =>
      have hih := ih z j
      simp only [filterSeriesLoop, Bool.and_false, Bool.false_eq_true, if_false,
        List.exists_mem_cons_iff]
      constructor
      · rw [hih.1]
        simp
      · rw [hih.2]
        simp
    | true =>
      by_cases hz : endsWithStr f ".zip" = true
      · have hj : endsWithStr f ".json" = false := by
          cases hjj : endsWithStr f ".json"
          · rfl
          · exact absurd ⟨hz, hjj⟩ (not_endsWith_zip_and_json f)
        simp only [filterSeriesLoop, hz, Bool.and_self, if_true]
        constructor
        · rw [(ih (insert (splitextStem f) z) j).1]
          simp only [Finset.mem_insert, List.exists_mem_cons_iff, hz,
            @eq_comm _ s (splitextStem f)]
          tauto
        · rw [(ih (insert (splitextStem f) z) j).2]
          simp [hj]
      · have hz' : endsWithStr f ".zip" = false := by
          cases hzz : endsWithStr f ".zip"
          · rfl
          · exact absurd hzz hz
        by_cases hj : endsWithStr f ".json" = true
        · simp only [filterSeriesLoop, hz', Bool.false_and, Bool.false_eq_true, if_false,
            hj, Bool.and_self, if_true]
          constructor
          · rw [(ih z (insert (splitextStem f) j)).1]
            simp [hz']
          · rw [(ih z (insert (splitextStem f) j)).2]
            simp only [Finset.mem_insert, List.exists_mem_cons_iff, hj,
              @eq_comm _ s (splitextStem f)]
            tauto
        · have hj' : endsWithStr f ".json" = false := by
            cases hjj : endsWithStr f ".json"
            · rfl
            · exact absurd hjj hj
          have hih := ih z j
          simp only [filterSeriesLoop, hz', hj', Bool.false_and, Bool.false_eq_true, if_false,
            List.exists_mem_cons_iff]
          constructor
          · rw [hih.1]
            simp [hz']
          · rw [hih.2]
            simp [hj']

/-- C6: the unit ids emitted for a date directory are exactly the
intersection of the archive-file stems and the sidecar-file stems of that
directory; stems in only one set are excluded. -/
theorem C6_locator_intersection (listing : List DirEntry) (s : String) :
    s ∈ filter_series listing ↔
      ((∃ p ∈ listing, p.2 = true ∧ endsWithStr p.1 ".zip" = true ∧ splitextStem p.1 = s) ∧
       (∃ p ∈ listing, p.2 = true ∧ endsWithStr p.1 ".json" = true ∧ splitextStem p.1 = s)) := by
  unfold filter_series
  rw [Finset.mem_inter, (filterSeriesLoop_mem listing ∅ ∅ s).1,
    (filterSeriesLoop_mem listing ∅ ∅ s).2]
  simp

/-! ## Pipeline helper lemmas -/

/-- Membership in `insertE`. -/
theorem mem_insertE {a e : Entry} {l : List Entry} : a ∈ insertE e l ↔ a = e ∨ a ∈ l := by
  unfold insertE
  split
  · next hmem =>
    constructor
    · exact Or.inr
    · rintro (rfl | h)
      · exact hmem
      · exact h
  · exact List.mem_cons

/-- The inserted entry is a member. -/
theorem self_mem_insertE (e : Entry) (l : List Entry) : e ∈ insertE e l :=
  mem_insertE.mpr (Or.inl rfl)

/-- The staging contents after the archive deletion at line 84. -/
theorem mem_afterZipRemoval {u : String} {cs : List Entry} {a : Entry} :
    a ∈ afterZipRemoval u cs ↔ a ∈ cs ∧ a ≠ localZip u := by
  unfold afterZipRemoval
  rw [List.mem_filter]
  simp only [mem_insertE, decide_eq_true_eq]
  constructor
  · rintro ⟨rfl | h, hne⟩
    · exact absurd rfl hne
    · exact ⟨h, hne⟩
  · rintro ⟨h, hne⟩
    exact ⟨Or.inr h, hne⟩

/-- The collected frame files. -/
theorem mem_dcmsOf {u : String} {cs : List Entry} {a : Entry} :
    a ∈ dcmsOf u cs ↔ a ∈ afterZipRemoval u cs ∧ isDcmName a.2 = true := by
  unfold dcmsOf
  rw [List.mem_filter]

/-- Membership after the frame-removal loop: a surviving entry is an entry
of the volume-extended staging set, and a collected frame file survives
only when its removal failed. -/
theorem mem_afterDcmRemoval {u : String} {cs df : List Entry} {a : Entry} :
    a ∈ afterDcmRemoval u cs df ↔
      a ∈ insertE (volFile u) (afterZipRemoval u cs) ∧ (a ∈ dcmsOf u cs → a ∈ df) := by
  unfold afterDcmRemoval
  rw [List.mem_filter]
  refine and_congr_right (fun _ => ?_)
  constructor
  · intro hb hin
    by_contra hdf
    rw [decide_eq_true hin, decide_eq_false hdf] at hb
    exact absurd hb (by decide)
  · intro himp
    by_cases hin : a ∈ dcmsOf u cs
    · rw [decide_eq_true hin, decide_eq_true (himp hin)]
      rfl
    · rw [decide_eq_false hin]
      rfl

/-- The volume file is never removed by the frame-removal loop. -/
theorem volFile_mem_afterDcmRemoval (u : String) (cs df : List Entry) :
    volFile u ∈ afterDcmRemoval u cs df := by
  rw [mem_afterDcmRemoval]
  refine ⟨self_mem_insertE _ _, fun hmem => ?_⟩
  have hd := (mem_dcmsOf.mp hmem).2
  rw [show (volFile u).2 = u ++ ".nii.gz" from rfl, isDcmName_vol u] at hd
  exact absurd hd (by decide)

/-- The volume file is present in the final staging contents. -/
theorem volFile_mem_finalStaging (u : String) (cs df : List Entry) (jc : Bool) :
    volFile u ∈ finalStaging u cs df jc := by
  unfold finalStaging
  cases jc
  · simpa using volFile_mem_afterDcmRemoval u cs df
  · simpa using mem_insertE.mpr (Or.inr (volFile_mem_afterDcmRemoval u cs df))

/-- Final staging membership splits into the sidecar and the
frame-removal survivors. -/
theorem mem_finalStaging_split {u : String} {cs df : List Entry} {jc : Bool} {e : Entry}
    (he : e ∈ finalStaging u cs df jc) :
    e = jsonFile u ∨ e ∈ afterDcmRemoval u cs df := by
  unfold finalStaging at he
  cases jc
  · exact Or.inr (by simpa using he)
  · exact mem_insertE.mp (by simpa using he)

/-- The archive copy is never part of the final staging contents. -/
theorem localZip_not_mem_finalStaging (u : String) (cs df : List Entry) (jc : Bool) :
    localZip u ∉ finalStaging u cs df jc := by
  intro h
  rcases mem_finalStaging_split h with heq | hmem
  · exact append_right_ne u (by decide) (congrArg Prod.snd heq)
  · have h1 := (mem_afterDcmRemoval.mp hmem).1
    rcases mem_insertE.mp h1 with heq | h2
    · exact append_right_ne u (by decide) (congrArg Prod.snd heq)
    · exact (mem_afterZipRemoval.mp h2).2 rfl

/-- A frame file in the final staging contents is one whose removal
failed. -/
theorem finalStaging_dcm_mem_df {u : String} {cs df : List Entry} {jc : Bool} {e : Entry}
    (he : e ∈ finalStaging u cs df jc) (hd : isDcmName e.2 = true) : e ∈ df := by
  rcases mem_finalStaging_split he with heq | hmem
  · rw [heq, show (jsonFile u).2 = u ++ ".json" from rfl, isDcmName_json u] at hd
    exact absurd hd (by decide)
  · obtain ⟨hin, himp⟩ := mem_afterDcmRemoval.mp hmem
    rcases mem_insertE.mp hin with heq | h2
    · rw [heq, show (volFile u).2 = u ++ ".nii.gz" from rfl, isDcmName_vol u] at hd
      exact absurd hd (by decide)
    · exact himp (mem_dcmsOf.mpr ⟨h2, hd⟩)

/-- Every final staging entry is the volume, the sidecar, or an extracted
entry. -/
theorem finalStaging_mem_cases {u : String} {cs df : List Entry} {jc : Bool} {e : Entry}
    (he : e ∈ finalStaging u cs df jc) :
    e = volFile u ∨ e = jsonFile u ∨ e ∈ cs := by
  rcases mem_finalStaging_split he with heq | hmem
  · exact Or.inr (Or.inl heq)
  · obtain ⟨hin, -⟩ := mem_afterDcmRemoval.mp hmem
    rcases mem_insertE.mp hin with heq | h2
    · exact Or.inl heq
    · exact Or.inr (Or.inr (mem_afterZipRemoval.mp h2).1)

/-! ## Claim theorems: pipeline -/

/-- C2 (counterexample): the claim that after `process_series` returns the
staging directory is absent or holds exactly the volume plus (on a
successful copy) the sidecar is false: with an archive also holding a
non-frame file, the completed run leaves that extracted file in place. -/
theorem C2_counterexample :
    ¬ ∀ (g d u : String) (env : Env),
        (process_series g d u env).staging = none ∨
        ∃ l, (process_series g d u env).staging = some l ∧
          ∀ e : Entry, e ∈ l ↔
            (e = volFile u ∨ (env.jsonCopyOk = true ∧ e = jsonFile u)) := by
  intro h
  rcases h "P" "D" "S1" envExtraFile with h0 | ⟨l, hl, hmem⟩
  · rw [show (process_series "P" "D" "S1" envExtraFile).staging
        = some [([], "S1.json"), ([], "S1.nii.gz"), ([], "notes.txt")] from rfl] at h0
    exact Option.noConfusion h0
  · rw [show (process_series "P" "D" "S1" envExtraFile).staging
        = some [([], "S1.json"), ([], "S1.nii.gz"), ([], "notes.txt")] from rfl] at hl
    obtain rfl : l = [([], "S1.json"), ([], "S1.nii.gz"), ([], "notes.txt")] :=
      (Option.some.inj hl).symm
    have hn := (hmem ([], "notes.txt")).mp (by decide)
    rcases hn with hv | ⟨-, hj⟩
    · exact absurd hv (by decide)
    · exact absurd hj (by decide)

/-- C2 (amended): after a normal (non-raising) return the staging
directory never holds the archive copy; on a skip return it is absent or
(after a stage-1 copy failure) empty; on a completed return it holds the
volume, the sidecar when the copy succeeded, frame files only when their
deletion failed, and otherwise only extracted entries. -/
theorem C2_staging_after_return (g d u : String) (env : Env) (l : List Entry)
    (hst : (process_series g d u env).staging = some l)
    (hok : (process_series g d u env).ret ≠ .error .makedirsFail)
    (hok2 : (process_series g d u env).ret ≠ .error .removeFail) :
    localZip u ∉ l ∧
    ((process_series g d u env).ret = .ok none → l = []) ∧
    (∀ r, (process_series g d u env).ret = .ok (some r) →
      volFile u ∈ l ∧
      (env.jsonCopyOk = true → jsonFile u ∈ l) ∧
      (∀ e ∈ l, isDcmName e.2 = true → e ∈ env.dcmRemoveFail) ∧
      (∀ e ∈ l, e = volFile u ∨ e = jsonFile u ∨ ∃ cs, env.unzip = .ok cs ∧ e ∈ cs)) := by
  obtain ⟨md, ms, cp, uz, rz, sr, sw, df, jc⟩ := env
  cases md with
  | false => exact absurd rfl hok
  | true =>
  cases ms with
  | false => exact absurd rfl hok
  | true =>
  cases cp with
  | false =>
    obtain rfl : ([] : List Entry) = l := Option.some.inj hst
    exact ⟨by simp, fun _ => rfl, fun r hr => absurd hr (by simp [process_series])⟩
  | true =>
  cases uz with
  | badZip =>
    cases rz with
    | false => exact absurd rfl hok2
    | true => exact absurd hst (by simp [process_series])
  | err lf =>
    cases rz with
    | false => exact absurd rfl hok2
    | true => exact absurd hst (by simp [process_series])
  | ok cs =>
    cases rz with
    | false => exact absurd rfl hok2
    | true =>
      by_cases hdc : (dcmsOf u cs).isEmpty = true
      · exact absurd hst (by simp [process_series, hdc])
      · cases sr with
        | false => exact absurd hst (by simp [process_series, hdc])
        | true =>
          cases sw with
          | false => exact absurd hst (by simp [process_series, hdc])
          | true =>
            have hst2 : some (finalStaging u cs df jc) = some l := by
              rw [← hst]
              simp [process_series, hdc]
            obtain rfl : finalStaging u cs df jc = l := Option.some.inj hst2
            refine ⟨localZip_not_mem_finalStaging u cs df jc, fun hr => ?_, fun r hr => ?_⟩
            · exact absurd hr (by simp [process_series, hdc])
            · refine ⟨volFile_mem_finalStaging u cs df jc, fun hjc => ?_, ?_, ?_⟩
              · rw [show (⟨true, true, true, .ok cs, true, true, true, df, jc⟩ :
                    Env).jsonCopyOk = jc from rfl] at hjc
                subst hjc
                exact self_mem_insertE (jsonFile u) (afterDcmRemoval u cs df)
              · exact fun e he hd => finalStaging_dcm_mem_df he hd
              · exact fun e he => by
                  rcases finalStaging_mem_cases he with h1 | h2 | h3
                  · exact Or.inl h1
                  · exact Or.inr (Or.inl h2)
                  · exact Or.inr (Or.inr ⟨cs, rfl, h3⟩)

/-- Witness for C2 (amended) at a fully successful run holding one frame
file. -/
theorem C2_staging_after_return_witness :
    localZip "S1" ∉ [(([] : List String), "S1.json"), ([], "S1.nii.gz")] ∧
    ((process_series "P" "D" "S1" envOkBase).ret = .ok none →
      [(([] : List String), "S1.json"), ([], "S1.nii.gz")] = []) ∧
    (∀ r, (process_series "P" "D" "S1" envOkBase).ret = .ok (some r) →
      volFile "S1" ∈ [(([] : List String), "S1.json"), ([], "S1.nii.gz")] ∧
      (envOkBase.jsonCopyOk = true →
        jsonFile "S1" ∈ [(([] : List String), "S1.json"), ([], "S1.nii.gz")]) ∧
      (∀ e ∈ [(([] : List String), "S1.json"), ([], "S1.nii.gz")],
        isDcmName e.2 = true → e ∈ envOkBase.dcmRemoveFail) ∧
      (∀ e ∈ [(([] : List String), "S1.json"), ([], "S1.nii.gz")],
        e = volFile "S1" ∨ e = jsonFile "S1" ∨
          ∃ cs, envOkBase.unzip = .ok cs ∧ e ∈ cs)) :=
  C2_staging_after_return "P" "D" "S1" envOkBase
    [([], "S1.json"), ([], "S1.nii.gz")] rfl (fun h => nomatch h) (fun h => nomatch h)

/-- C3: a stage-2 failure (corrupt or unreadable archive), a stage-3
failure (no frame files) or a stage-4 failure (decode or encode error)
removes the staging directory entirely, returns normally (`None`, so the
run continues), and prints exactly one skip warning. -/
theorem C3_stage_failure_teardown (g d u : String) (env : Env)
    (hmd : env.makedirsDateOk = true) (hms : env.makedirsSeriesOk = true)
    (hcp : env.copyZipOk = true) (hrz : env.removeZipOk = true)
    (hfail : env.unzip = .badZip ∨ (∃ lf, env.unzip = .err lf) ∨
      (∃ cs, env.unzip = .ok cs ∧
        (dcmsOf u cs = [] ∨ env.sitkReadOk = false ∨ env.sitkWriteOk = false))) :
    (process_series g d u env).staging = none ∧
    (process_series g d u env).ret = .ok none ∧
    (process_series g d u env).log.countP (fun m => m.isSkipWarn) = 1 := by
  rcases hfail with huz | ⟨lf, huz⟩ | ⟨cs, huz, hcase⟩
  · refine ⟨?_, ?_, ?_⟩ <;>
      simp [process_series, hmd, hms, hcp, hrz, huz, LogMsg.isSkipWarn]
  · refine ⟨?_, ?_, ?_⟩ <;>
      simp [process_series, hmd, hms, hcp, hrz, huz, LogMsg.isSkipWarn]
  · rcases hcase with hdc | hsr | hsw
    · refine ⟨?_, ?_, ?_⟩ <;>
        simp [process_series, hmd, hms, hcp, hrz, huz, hdc, LogMsg.isSkipWarn]
    · by_cases hdc : (dcmsOf u cs).isEmpty = true <;>
        · refine ⟨?_, ?_, ?_⟩ <;>
            simp [process_series, hmd, hms, hcp, hrz, huz, hdc, hsr, LogMsg.isSkipWarn]
    · rcases Bool.eq_false_or_eq_true env.sitkReadOk with hsr | hsr <;>
        by_cases hdc : (dcmsOf u cs).isEmpty = true <;>
        · refine ⟨?_, ?_, ?_⟩ <;>
            simp [process_series, hmd, hms, hcp, hrz, huz, hdc, hsr, hsw, LogMsg.isSkipWarn]

/-- Witness for C3 at a corrupt archive. -/
theorem C3_stage_failure_teardown_witness :
    (process_series "P" "D" "S1" envBadZip).staging = none ∧
    (process_series "P" "D" "S1" envBadZip).ret = .ok none ∧
    (process_series "P" "D" "S1" envBadZip).log.countP (fun m => m.isSkipWarn) = 1 :=
  C3_stage_failure_teardown "P" "D" "S1" envBadZip rfl rfl rfl rfl (Or.inl rfl)

/-- C4: once the volume write has succeeded, failures of the frame-file
removals or of the sidecar copy cause no rollback: the run returns the
completed triple, and the volume is present in the staging directory. -/
theorem C4_finalize_no_rollback (g d u : String) (env : Env) (cs : List Entry)
    (hmd : env.makedirsDateOk = true) (hms : env.makedirsSeriesOk = true)
    (hcp : env.copyZipOk = true) (hrz : env.removeZipOk = true)
    (huz : env.unzip = .ok cs) (hdc : dcmsOf u cs ≠ [])
    (hsr : env.sitkReadOk = true) (hsw : env.sitkWriteOk = true) :
    (process_series g d u env).ret = .ok (some (g, d, u)) ∧
    ∃ l, (process_series g d u env).staging = some l ∧ volFile u ∈ l := by
  have hie : (dcmsOf u cs).isEmpty = false := by
    cases hi : (dcmsOf u cs).isEmpty
    · rfl
    · exact absurd (List.isEmpty_iff.mp hi) hdc
  constructor
  · simp [process_series, hmd, hms, hcp, hrz, huz, hie, hsr, hsw]
  · refine ⟨finalStaging u cs env.dcmRemoveFail env.jsonCopyOk, ?_,
      volFile_mem_finalStaging u cs env.dcmRemoveFail env.jsonCopyOk⟩
    simp [process_series, hmd, hms, hcp, hrz, huz, hie, hsr, hsw]

/-- Witness for C4 with a failing frame-file removal and a failing sidecar
copy. -/
theorem C4_finalize_no_rollback_witness :
    (process_series "P" "D" "S1" envStage5Fail).ret = .ok (some ("P", "D", "S1")) ∧
    ∃ l, (process_series "P" "D" "S1" envStage5Fail).staging = some l ∧
      volFile "S1" ∈ l :=
  C4_finalize_no_rollback "P" "D" "S1" envStage5Fail [(["d1"], "im1.dcm")]
    rfl rfl rfl rfl rfl (by decide) rfl rfl

/-- C5 (counterexample): an unwritable output directory makes
`os.makedirs` raise, and the exception escapes `process_series`, so the
claimed full per-unit failure containment does not hold. -/
theorem C5_counterexample :
    (process_series "P" "D" "S1" envMakedirsFail).ret = .error .makedirsFail := rfl

/-- C5 (amended): failures of the guarded calls — the archive copy, the
extraction, the conversion read and write, the frame-file removals, the
sidecar copy — are all contained inside `process_series`; only a failing
`os.makedirs` (lines 51, 55) or a failing `os.remove` of the archive copy
(lines 73, 79, 84) lets an exception escape. -/
theorem C5_guarded_failures_contained (g d u : String) (env : Env)
    (hmd : env.makedirsDateOk = true) (hms : env.makedirsSeriesOk = true)
    (hrz : env.removeZipOk = true) :
    (process_series g d u env).ret ≠ .error .makedirsFail ∧
    (process_series g d u env).ret ≠ .error .removeFail := by
  cases hcp : env.copyZipOk
  · constructor <;> simp [process_series, hmd, hms, hcp]
  · cases huz : env.unzip with
    | badZip => constructor <;> simp [process_series, hmd, hms, hcp, hrz, huz]
    | err lf => constructor <;> simp [process_series, hmd, hms, hcp, hrz, huz]
    | ok cs =>
      by_cases hdc : (dcmsOf u cs).isEmpty = true
      · constructor <;> simp [process_series, hmd, hms, hcp, hrz, huz, hdc]
      · cases hsr : env.sitkReadOk
        · constructor <;> simp [process_series, hmd, hms, hcp, hrz, huz, hdc, hsr]
        · cases hsw : env.sitkWriteOk
          · constructor <;>
              simp [process_series, hmd, hms, hcp, hrz, huz, hdc, hsr, hsw]
          · constructor <;>
              simp [process_series, hmd, hms, hcp, hrz, huz, hdc, hsr, hsw]

/-- Witness for C5 (amended) at a failing guarded archive copy. -/
theorem C5_guarded_failures_contained_witness :
    (process_series "P" "D" "S1" envCopyFail).ret ≠ .error .makedirsFail ∧
    (process_series "P" "D" "S1" envCopyFail).ret ≠ .error .removeFail :=
  C5_guarded_failures_contained "P" "D" "S1" envCopyFail rfl rfl rfl

/-- C7 (counterexample): the returned value does not identify which skip
variant occurred: a corrupt archive and an archive with no frame files
both return `None`, distinguishable only through the printed warning. -/
theorem C7_counterexample :
    (process_series "P" "D" "S1" envBadZip).ret =
      (process_series "P" "D" "S1" envNoDcm).ret ∧
    (process_series "P" "D" "S1" envBadZip).log ≠
      (process_series "P" "D" "S1" envNoDcm).log :=
  ⟨rfl, by decide⟩

/-- C7 (amended): every run ends in exactly one of three shapes — an
escaped exception, a skip (`None` returned, exactly one skip warning
printed, no completion message), or completion (the task triple returned,
no skip warning, the completion message printed). -/
theorem C7_return_collapses_variants (g d u : String) (env : Env) :
    (∃ exc, (process_series g d u env).ret = .error exc) ∨
    ((process_series g d u env).ret = .ok none ∧
      (process_series g d u env).log.countP (fun m => m.isSkipWarn) = 1 ∧
      LogMsg.infoFinished ∉ (process_series g d u env).log) ∨
    ((process_series g d u env).ret = .ok (some (g, d, u)) ∧
      (process_series g d u env).log.countP (fun m => m.isSkipWarn) = 0 ∧
      LogMsg.infoFinished ∈ (process_series g d u env).log) := by
  cases hmd : env.makedirsDateOk
  · exact Or.inl ⟨.makedirsFail, by simp [process_series, hmd]⟩
  · cases hms : env.makedirsSeriesOk
    · exact Or.inl ⟨.makedirsFail, by simp [process_series, hmd, hms]⟩
    · cases hcp : env.copyZipOk
      · refine Or.inr (Or.inl ⟨?_, ?_, ?_⟩) <;>
          simp [process_series, hmd, hms, hcp, LogMsg.isSkipWarn]
      · cases hrz : env.removeZipOk
        · cases huz : env.unzip with
          | badZip =>
            exact Or.inl ⟨.removeFail, by simp [process_series, hmd, hms, hcp, hrz, huz]⟩
          | err lf =>
            exact Or.inl ⟨.removeFail, by simp [process_series, hmd, hms, hcp, hrz, huz]⟩
          | ok cs =>
            exact Or.inl ⟨.removeFail, by simp [process_series, hmd, hms, hcp, hrz, huz]⟩
        · cases huz : env.unzip with
          | badZip =>
            refine Or.inr (Or.inl ⟨?_, ?_, ?_⟩) <;>
              simp [process_series, hmd, hms, hcp, hrz, huz, LogMsg.isSkipWarn]
          | err lf =>
            refine Or.inr (Or.inl ⟨?_, ?_, ?_⟩) <;>
              simp [process_series, hmd, hms, hcp, hrz, huz, LogMsg.isSkipWarn]
          | ok cs =>
            by_cases hdc : (dcmsOf u cs).isEmpty = true
            · refine Or.inr (Or.inl ⟨?_, ?_, ?_⟩) <;>
                simp [process_series, hmd, hms, hcp, hrz, huz, hdc, LogMsg.isSkipWarn]
            · cases hsr : env.sitkReadOk
              · refine Or.inr (Or.inl ⟨?_, ?_, ?_⟩) <;>
                  simp [process_series, hmd, hms, hcp, hrz, huz, hdc, hsr, LogMsg.isSkipWarn]
              · cases hsw : env.sitkWriteOk
                · refine Or.inr (Or.inl ⟨?_, ?_, ?_⟩) <;>
                    simp [process_series, hmd, hms, hcp, hrz, huz, hdc, hsr, hsw,
                      LogMsg.isSkipWarn]
                · cases hjc : env.jsonCopyOk <;>
                    · refine Or.inr (Or.inr ⟨?_, ?_, ?_⟩) <;>
                        simp [process_series, hmd, hms, hcp, hrz, huz, hdc, hsr, hsw, hjc,
                          List.countP_append, List.countP_map, LogMsg.isSkipWarn,
                          List.countP_eq_zero, Function.comp]

/-! ## Claim theorems: dispatcher -/

/-- C9: the pool dispatcher (any arrival order, i.e. any permutation of the
task list) and the serial dispatcher produce the same multiset of per-unit
results. -/
theorem C9_pool_matches_serial (envOf : Task → Env) (tasks sched : List Task)
    (h : sched.Perm tasks) :
    (↑(dispatchPool envOf sched) : Multiset PRes) = ↑(dispatchSerial envOf tasks) :=
  Multiset.coe_eq_coe.mpr (h.map _)

/-- Witness for C9 on two tasks delivered in swapped order. -/
theorem C9_pool_matches_serial_witness :
    (↑(dispatchPool envOfW [("P2", "D2", "S2"), ("P1", "D1", "S1")]) : Multiset PRes) =
      ↑(dispatchSerial envOfW [("P1", "D1", "S1"), ("P2", "D2", "S2")]) :=
  C9_pool_matches_serial envOfW [("P1", "D1", "S1"), ("P2", "D2", "S2")]
    [("P2", "D2", "S2"), ("P1", "D1", "S1")] (by decide)

end CleanData
